import Mathlib

/-!
Verification development for the taxonomy resolution and staging
reconciliation engine of a desktop file organizer.

The engine is shallowly embedded from its TypeScript sources:

* `src/services/taxonomyService.ts` — similarity scoring (`calculateSimilarity`),
  fuzzy matching against the category tree (`findBestMatch`,
  `getAllCategoryPaths`);
* `src/services/batchProcessor.ts` — the per-file post-processing of AI
  analysis results (`applyAnalysisResult`, embedded here as
  `resolveFinalCategory`), the per-file duplicate check of `processFiles`
  (`dedupPhaseOneFile`) and the per-file analysis error handler
  (`handleAnalysisError`);
* `src/store/stagingStore.ts` — the staging store state and its actions
  (`updateFileStatus`, `updateFileHash`, `updateFileProposal`, `removeFile`);
* `src/services/taxonomyService.ts` (second unit, `FileOpsService`) — the
  commit and undo engine (`executeMove`, `executeCommit`, `executeUndo`).

JavaScript string operations are modelled on `List Char` with explicit
functions (`splitChar` for `String.prototype.split` with a one-character
separator, `splitRuns` for splitting on a `[\s/]+` regular expression,
`jsIncludes` for `String.prototype.includes`, `jsOr` for `a || b` on strings
where the empty string is falsy).  Machine floats of the source appear only
as similarity ratios and confidence constants; they are modelled as `ℚ`
(the source computes small exact ratios of integers, so no rounding behavior
is relevant to the claims).
-/

namespace Mindsync

/-- `a || b` of JavaScript restricted to strings: the empty string is the
only falsy string. -/
def jsOr (a b : String) : String := if a = "" then b else a

/-- `String.prototype.toLowerCase` for the ASCII range (the sources compare
ASCII category names; non-ASCII characters are unaffected on both sides). -/
def jsToLower (s : String) : String := String.mk (s.toList.map Char.toLower)

/-- Does `needle` occur as a contiguous run inside `haystack`?  (An empty
needle occurs everywhere, as for JavaScript `includes`.) -/
def containsSeq (needle : List Char) : List Char → Bool
  | [] => needle.isEmpty
  | c :: rest => needle.isPrefixOf (c :: rest) || containsSeq needle rest

/-- `haystack.includes(needle)` of JavaScript: substring containment. -/
def jsIncludes (haystack needle : String) : Bool :=
  containsSeq needle.toList haystack.toList

/-- `s.split(sep)` of JavaScript with a one-character separator: split at
every separator character, keeping empty pieces (so `"a//b".split('/')`
has three pieces and `"".split('/')` has one). -/
def splitChar (sep : Char) : List Char → List (List Char)
  | [] => [[]]
  | c :: rest =>
      if c = sep then [] :: splitChar sep rest
      else
        match splitChar sep rest with
        | [] => [[c]]
        | t :: ts => (c :: t) :: ts

/-- `s.split(regex)` of JavaScript for a regular expression of the form
`[…]+`: maximal runs of separator characters delimit the pieces, so runs
are collapsed, while a leading or trailing run still contributes an empty
piece.  The boolean argument records whether the previous character was a
separator (i.e. whether we are inside a run). -/
def splitRunsAux (p : Char → Bool) : Bool → List Char → List Char → List (List Char)
  | _, acc, [] => [acc.reverse]
  | inRun, acc, c :: rest =>
      if p c then
        if inRun then splitRunsAux p true acc rest
        else acc.reverse :: splitRunsAux p true [] rest
      else splitRunsAux p false (c :: acc) rest

/-- Split a character list on maximal runs of characters satisfying `p`,
with JavaScript `split(/[…]+/)` semantics. -/
def splitRuns (p : Char → Bool) (cs : List Char) : List (List Char) :=
  splitRunsAux p false [] cs

/-- The separator class `[\s\/]` of `calculateSimilarity`: a slash or an
ASCII whitespace character. -/
def simSep (c : Char) : Bool :=
  c = '/' || c = ' ' || c = '\t' || c = '\n' || c = '\r' ||
  c = Char.ofNat 0x0b || c = Char.ofNat 0x0c

/-- Token set of one input of `calculateSimilarity`
(`new Set(text.toLowerCase().split(/[\s\/]+/))`): lowercase, split on runs
of whitespace and slashes, dedupe into a set. -/
def simTokens (s : String) : Finset String :=
  ((splitRuns simSep (jsToLower s).toList).map (fun cs => String.mk cs)).toFinset

/-- A similarity value `|A ∩ B| / |A ∪ B|` kept as the exact pair of
cardinalities (the source computes the quotient as a float; keeping the
pair lets every comparison be the exact rational comparison of the
represented values, see `SimScore.val` and `simLt_iff_val_lt`). -/
structure SimScore where
  inter : Nat
  union : Nat
deriving DecidableEq

/-- The value represented by a `SimScore`: `union.size > 0 ? inter/union : 0`
of `calculateSimilarity`. -/
def SimScore.val (s : SimScore) : ℚ :=
  if s.union = 0 then 0 else (s.inter : ℚ) / (s.union : ℚ)

/-- The zero similarity (the literal `0` of the source). -/
def simZero : SimScore := ⟨0, 1⟩

/-- Strict comparison of the values of two similarity scores, by
cross-multiplication (a pair with a zero denominator represents the value
`0`). -/
def simLt (p q : SimScore) : Bool :=
  let pn := if p.union = 0 then (0, 1) else (p.inter, p.union)
  let qn := if q.union = 0 then (0, 1) else (q.inter, q.union)
  decide (pn.1 * qn.2 < qn.1 * pn.2)

/-- `TaxonomyService.calculateSimilarity`: the Jaccard similarity
`|A ∩ B| / |A ∪ B|` of the two token sets (kept as the exact pair; the
`union.size > 0` guard of the source is part of the value interpretation
`SimScore.val`). -/
def calculateSimilarity (text1 text2 : String) : SimScore :=
  ⟨((simTokens text1) ∩ (simTokens text2)).card,
   ((simTokens text1) ∪ (simTokens text2)).card⟩

/-- `path.replace(/^\/+/, '')`: drop every leading slash. -/
def stripLeadingSlashes (s : String) : String :=
  String.mk (s.toList.dropWhile (fun c => c = '/'))

/-- `path.replace(/\/+$/, '')`: drop every trailing slash. -/
def stripTrailingSlashes (s : String) : String :=
  String.mk ((s.toList.reverse.dropWhile (fun c => c = '/')).reverse)

/-- `path.replace(/^\/+/, '').replace(/\/+$/, '')`, the normalization the
batch processor applies to every path it writes. -/
def stripSlashes (s : String) : String :=
  stripTrailingSlashes (stripLeadingSlashes s)

/-- `path.replace(/^\/+/, '').split('/').filter(Boolean)`: the non-empty
slash-separated segments of a path, as computed by `applyAnalysisResult`. -/
def segParts (s : String) : List String :=
  ((splitChar '/' (stripLeadingSlashes s).toList).filter
      (fun t => !t.isEmpty)).map (fun t => String.mk t)

/-- `parts.join('/')` of JavaScript. -/
def jsJoinSlash : List String → String
  | [] => ""
  | [x] => x
  | x :: y :: xs => x ++ "/" ++ jsJoinSlash (y :: xs)

/-- `path.split('/')[0]`: the first slash-separated piece (possibly empty,
e.g. for a path with a leading slash). -/
def headSegment (s : String) : String :=
  String.mk ((splitChar '/' s.toList).headD [])

/-- A node of the category tree (`CategoryNode` of `metadata.v3.ts`):
an id, a display name, a slash-joined path, and child nodes. -/
inductive CategoryNode where
  | mk (id : String) (name : String) (path : String)
      (children : List CategoryNode)

mutual

/-- The paths contributed by one node: its own path, then (recursively)
those of its children. -/
def categoryNodePaths : CategoryNode → List String
  | CategoryNode.mk _ _ p cs => p :: getAllCategoryPaths cs

/-- `TaxonomyService.getAllCategoryPaths`: the paths of all nodes of a
category forest, in depth-first preorder (each node before its children,
children before later siblings). -/
def getAllCategoryPaths : List CategoryNode → List String
  | [] => []
  | n :: rest => categoryNodePaths n ++ getAllCategoryPaths rest

end

/-- `DEFAULT_TAXONOMY_ROOT` of `taxonomyService.ts`. -/
def defaultTaxonomyRoot : List CategoryNode :=
  [CategoryNode.mk "work" "Work" "/Work" [],
   CategoryNode.mk "life" "Life" "/Life" [],
   CategoryNode.mk "archive" "Archive" "/Archive" [],
   CategoryNode.mk "unclassified" "_Unclassified" "/_Unclassified" []]

/-- Result of `TaxonomyService.findBestMatch`: a category path together
with its similarity score. -/
structure BestMatch where
  path : String
  similarity : SimScore
deriving DecidableEq

/-- The scan loop of `findBestMatch`: keep the first path attaining each
strictly larger similarity (ties broken by encounter order). -/
def findBestMatchLoop (suggestedPath : String) :
    List String → BestMatch → BestMatch
  | [], best => best
  | p :: rest, best =>
      let s := calculateSimilarity suggestedPath p
      findBestMatchLoop suggestedPath rest
        (if simLt best.similarity s then ⟨p, s⟩ else best)

/-- `TaxonomyService.findBestMatch(suggestedPath, threshold)`.  The
`allPaths` parameter stands for `this.getAllCategoryPaths()`, the flattened
paths of the service's category tree (the tree is service state, passed
here explicitly).  Starts from `{path: '/_Unclassified', similarity: 0}`
and falls back to that sentinel when the best score is below the
threshold. -/
def findBestMatch (allPaths : List String) (suggestedPath : String)
    (threshold : SimScore) : BestMatch :=
  let best := findBestMatchLoop suggestedPath allPaths ⟨"/_Unclassified", simZero⟩
  if simLt best.similarity threshold then ⟨"/_Unclassified", simZero⟩ else best

/-- Taxonomy governance mode (`TaxonomyConfig.mode`). -/
inductive TaxMode where
  | strict
  | flexible
deriving DecidableEq

/-- `TaxonomyConfig` of `metadata.v3.ts` (the fields the engine reads). -/
structure TaxonomyConfig where
  mode : TaxMode
  maxDepth : Nat
  maxChildren : Nat
  ignorePatterns : List String := []
  categoryVocabulary : List String := []

/-- `CorrectionRecord` of `metadata.v3.ts`: one learned user override. -/
structure CorrectionRecord where
  aiSuggested : String
  userChosen : String
  fileName : String
  timestamp : Nat
deriving DecidableEq

/-- The extension of a file name: the substring after the last dot. -/
def fileExtension (s : String) : String :=
  String.mk ((s.toList.reverse.takeWhile (fun c => c ≠ '.')).reverse)

/-- The stem of a file name before the first run of digits, underscores or
hyphens. -/
def namePrefixPart (s : String) : String :=
  String.mk (s.toList.takeWhile
    (fun c => !(c.isDigit || c = '_' || c = '-')))

/-- Modelled from the spec: `TaxonomyService.findApplicableCorrection` is
called by `applyAnalysisResult` but its definition is not among the
sources, so it follows §4.2 of the specification: an exact filename match
wins; otherwise a fuzzy match requires an identical file extension and an
identical prefix (the substring before the first run of digits,
underscores or hyphens), with a minimum prefix length of 3 characters; the
first matching record in log order is returned. -/
def findApplicableCorrection (log : List CorrectionRecord)
    (fileName : String) : Option CorrectionRecord :=
  match log.find? (fun r => r.fileName == fileName) with
  | some r => some r
  | none =>
      log.find? (fun r =>
        fileExtension r.fileName == fileExtension fileName &&
        namePrefixPart r.fileName == namePrefixPart fileName &&
        3 ≤ (namePrefixPart fileName).length)

/-- Modelled from the spec: `TaxonomyService.isInVocabulary` is called by
`applyAnalysisResult` but its definition is not among the sources, so it
follows §3/§4.1 of the specification: with an empty vocabulary every path
is acceptable; otherwise the path's top segment must be a prefix/substring
match of some vocabulary entry (in either direction). -/
def isInVocabulary (vocab : List String) (path : String) : Bool :=
  vocab.isEmpty ||
    vocab.any (fun v =>
      jsIncludes v (headSegment path) || jsIncludes (headSegment path) v)

/-- The exact-membership test of `applyAnalysisResult`:
`existingCategories.includes(c) || existingCategories.includes('/' + c)`. -/
def memberOfCategories (existingCategories : List String) (c : String) : Bool :=
  existingCategories.contains c || existingCategories.contains ("/" ++ c)

/-- The sibling filter of the `maxChildren` check of `applyAnalysisResult`:
how many existing categories share the parent path of the suggested
category (the parent path is taken from the pre-truncation parts). -/
def siblingCount (existingCategories : List String) (parts : List String) : Nat :=
  (existingCategories.filter (fun cat =>
    jsJoinSlash (segParts cat).dropLast == jsJoinSlash parts.dropLast)).length

/-- The depth-limit step of `applyAnalysisResult`: if the category has more
than `maxDepth` non-empty segments, keep the first `maxDepth` of them. -/
def truncateToDepth (maxDepth : Nat) (category : String) : String :=
  if maxDepth < (segParts category).length then
    jsJoinSlash ((segParts category).take maxDepth)
  else category

/-- Does the `maxChildren` collapse of the Flexible branch of
`applyAnalysisResult` fire?  `fc0` is the raw category (whose parts give
the parent path), `fc` the category at the point of the check. -/
def collapseFires (cfg : TaxonomyConfig) (existingCategories : List String)
    (fc0 fc : String) : Bool :=
  decide (0 < (segParts fc0).length) &&
  !(memberOfCategories existingCategories fc) &&
  decide (cfg.maxChildren ≤ siblingCount existingCategories (segParts fc0))

/-- `BatchProcessor.applyAnalysisResult`, restricted to the computation of
the `targetPath` it finally writes into the staging store via
`updateFileProposal` (summary/tags/confidence are copied from the analysis
and do not feed back into the path).  `treePaths` stands for the flattened
paths of the taxonomy service's category tree, used by its `findBestMatch`;
`existingCategories` is the list the batch processor collected from the
metadata index and the folder scan.  Steps, in source order: correction
lookup (early return), depth truncation, vocabulary enforcement,
`maxChildren` collapse (Flexible mode only), Strict-mode
exact/fuzzy/fallback resolution, final slash stripping. -/
def resolveFinalCategory (cfg : TaxonomyConfig) (treePaths : List String)
    (existingCategories : List String) (corrections : List CorrectionRecord)
    (fileName : String) (analysisCategory : String) : String :=
  let fc0 := jsOr analysisCategory "未分类"
  match findApplicableCorrection corrections fileName with
  | some rec => stripSlashes rec.userChosen
  | none =>
      let parts := segParts fc0
      let fc1 := truncateToDepth cfg.maxDepth fc0
      let fc2 :=
        if isInVocabulary cfg.categoryVocabulary fc1 then fc1
        else if cfg.categoryVocabulary.isEmpty then fc1
        else
          let bvm := findBestMatch treePaths fc1 ⟨2, 10⟩
          if cfg.categoryVocabulary.any (fun v =>
              jsIncludes bvm.path v || jsIncludes v (headSegment bvm.path))
          then bvm.path else fc1
      let fc3 :=
        if cfg.mode = TaxMode.flexible ∧ 0 < parts.length then
          if memberOfCategories existingCategories fc2 then fc2
          else if cfg.maxChildren ≤ siblingCount existingCategories parts then
            stripLeadingSlashes (findBestMatch treePaths fc2 ⟨2, 10⟩).path
          else fc2
        else fc2
      let fc4 :=
        if cfg.mode = TaxMode.strict then
          if existingCategories = [] then ""
          else if memberOfCategories existingCategories fc3 then fc3
          else
            let bm := findBestMatch treePaths fc3 ⟨3, 10⟩
            if simLt simZero bm.similarity then bm.path
            else existingCategories.headD ""
        else fc3
      stripSlashes fc4

/-- The number of pieces of `p.split('/')` — the segment count used by the
depth-bound property of the specification (empty pieces included, exactly
as JavaScript `split` produces them). -/
def rawSegCount (s : String) : Nat := (splitChar '/' s.toList).length

/-- The number of non-empty slash-separated segments of a path (the count
the engine's own depth-limit step works with). -/
def segCount (s : String) : Nat := (segParts s).length

/-- Claim C2's resolution procedure as the specification words it: when
the suggestion is not an exact member, the fuzzy similarity is computed
against every entry of `existingCategories`; the best-scoring entry is
returned when its score exceeds the 0.3 threshold, and otherwise the
first entry of `existingCategories` is the forced fallback. -/
def resolveStrictPerSpecC2 (existingCategories : List String)
    (suggested : String) : String :=
  if memberOfCategories existingCategories suggested then suggested
  else
    let best := findBestMatchLoop suggested existingCategories
      ⟨existingCategories.headD "", simZero⟩
    if simLt ⟨3, 10⟩ best.similarity then best.path
    else existingCategories.headD ""

/-- Lifecycle status of a staged file (`StagedFile['status']` of
`stagingStore.ts`). -/
inductive FileStatus where
  | pending
  | analyzing
  | success
  | error
  | duplicate
deriving DecidableEq

/-- `StagedFile['proposal']`: the AI/resolver output for one file. -/
structure Proposal where
  targetPath : String
  summary : String
  tags : List String
  reasoning : String
  confidence : ℚ
deriving DecidableEq

/-- `StagedFile['userEdit']`: a partial user override of the proposal. -/
structure UserEdit where
  targetPath : Option String := none
  summary : Option String := none
  tags : Option (List String) := none
deriving DecidableEq

/-- `StagedFile` of `stagingStore.ts`.  `name` is `file.file.name`;
`fileDotPath` is the Electron `(file.file as any).path` property, with the
empty string when absent; `isReanalysis` is the flag `processFiles` reads
on re-analysis runs (set by the re-analysis flow; absent entries read as
`false`). -/
structure StagedFile where
  id : String
  name : String
  fileDotPath : String
  status : FileStatus
  originalPath : String
  contentHash : Option String := none
  proposal : Option Proposal := none
  userEdit : Option UserEdit := none
  error : Option String := none
  isReanalysis : Bool := false
deriving DecidableEq

/-- `updateFileStatus(id, status, error?)` of the staging store: rewrite
the matching file's status, and set its error field to the passed value
(`none` when the caller omits it, which clears the field). -/
def updateFileStatus (files : List StagedFile) (id : String)
    (status : FileStatus) (error : Option String) : List StagedFile :=
  files.map (fun f =>
    if f.id == id then { f with status := status, error := error } else f)

/-- `updateFileHash(id, hash)` of the staging store. -/
def updateFileHash (files : List StagedFile) (id : String)
    (hash : String) : List StagedFile :=
  files.map (fun f =>
    if f.id == id then { f with contentHash := some hash } else f)

/-- `updateFileProposal(id, proposal)` of the staging store: rewrite the
matching file's proposal and set its status to `success`. -/
def updateFileProposal (files : List StagedFile) (id : String)
    (proposal : Option Proposal) : List StagedFile :=
  files.map (fun f =>
    if f.id == id then
      { f with proposal := proposal, status := FileStatus.success }
    else f)

/-- `removeFile(id)` of the staging store, restricted to the `files`
field (the selection bookkeeping it also performs does not interact with
any claim). -/
def removeFile (files : List StagedFile) (id : String) : List StagedFile :=
  files.filter (fun f => f.id != id)

/-- The explanatory proposal `processFiles` writes for a duplicate file:
the exact-duplicate variant when the indexed entry's original name equals
the file's name, and the same-content-different-name variant (showing
both names) otherwise. -/
def dupProposal (fileName existingFileName : String)
    (isSameName : Bool) : Proposal :=
  { targetPath := "已存在/跳过",
    summary :=
      if isSameName then "文件完全重复（同名同内容）"
      else "发现同内容不同名文件：已有 \"" ++ existingFileName ++ "\"，建议统一命名",
    tags := if isSameName then ["完全重复"] else ["内容重复", "不同文件名"],
    reasoning :=
      if isSameName then "MD5 Hash 完全一致：文件名和内容都相同。"
      else "MD5 Hash 一致但文件名不同：当前 \"" ++ fileName ++ "\" vs 已有 \""
            ++ existingFileName ++ "\"",
    confidence := 1 }

/-- The hash/dedup phase of `processFiles` for one file, given the
computed content hash: mark it `analyzing`, record the hash, and — for a
non-reanalysis file whose hash is already indexed — mark it `duplicate`
and write the explanatory proposal (`lookupOriginalName` reads the
indexed entry's original name for the hash; a missing entry falls back to
the `"未知文件"` placeholder).  A non-duplicate (or reanalysis) file is
left `analyzing`, bound for the manifest phase. -/
def dedupPhaseOneFile (files : List StagedFile) (f : StagedFile)
    (existingHashes : List String)
    (lookupOriginalName : String → Option String)
    (hash : String) : List StagedFile :=
  let s1 := updateFileStatus files f.id FileStatus.analyzing none
  let s2 := updateFileHash s1 f.id hash
  if f.isReanalysis then s2
  else if existingHashes.contains hash then
    let s3 := updateFileStatus s2 f.id FileStatus.duplicate none
    let existingFileName := (lookupOriginalName hash).getD "未知文件"
    let isSameName := existingFileName == f.name
    updateFileProposal s3 f.id
      (some (dupProposal f.name existingFileName isSameName))
  else s2

/-- The staged entry for the second of two identically-hashed files,
scenario 4 of the specification (`report.pdf` indexed first,
`report_v2.pdf` processed second). -/
def dupDemoFile : StagedFile :=
  { id := "f2", name := "report_v2.pdf", fileDotPath := "/in/report_v2.pdf",
    status := FileStatus.pending, originalPath := "/in/report_v2.pdf" }

/-- The capability-mismatch test of the per-file analysis error handler
of `processFiles`: the error message contains `'不支持'` or (lowercased)
`'not support'`. -/
def notSupportedMarker (errMessage : String) : Bool :=
  jsIncludes errMessage "不支持" ||
  jsIncludes (jsToLower errMessage) "not support"

/-- The proposal the error handler writes for a capability-mismatch
failure. -/
def capMismatchProposal (errMessage : String) : Proposal :=
  { targetPath := "未分类/Error",
    summary := "⚠️ 模型不支持此文件类型: " ++ errMessage,
    tags := ["模型不支持",
      if jsIncludes (jsToLower errMessage) "deepseek" then "DeepSeek"
      else "Compat"],
    reasoning := "Model Capability Limit: " ++ errMessage,
    confidence := 0 }

/-- The per-file `catch` handler of the analysis loop of `processFiles`:
a capability-mismatch error writes the `capMismatchProposal` through
`updateFileProposal` (the UI alert it also raises is display-only); any
other error sets the file's status to `error` with the prefixed
message. -/
def handleAnalysisError (files : List StagedFile) (fileId : String)
    (errMessage : String) : List StagedFile :=
  if notSupportedMarker errMessage then
    updateFileProposal files fileId (some (capMismatchProposal errMessage))
  else
    updateFileStatus files fileId FileStatus.error
      (some ("Analysis Error: " ++ errMessage))

/-- Two staged entries for the capability-mismatch scenario. -/
def visionDemoFile : StagedFile :=
  { id := "fa", name := "photo.png", fileDotPath := "/in/photo.png",
    status := FileStatus.analyzing, originalPath := "/in/photo.png" }

/-- The unaffected second file of the capability-mismatch scenario. -/
def otherDemoFile : StagedFile :=
  { id := "fb", name := "notes.txt", fileDotPath := "/in/notes.txt",
    status := FileStatus.analyzing, originalPath := "/in/notes.txt" }

/-- `MoveResult` of the commit engine. -/
structure MoveResult where
  fileId : String
  success : Bool
  sourcePath : String
  targetPath : String
  error : Option String := none
deriving DecidableEq

/-- The filesystem capabilities `executeMove` consumes, as the outcomes
they would produce: `rootPath` is `localStorage.getItem('electron_root_path')`
(the empty string standing for an unset root), `ensureDirErr dir` and
`moveErr src dst` are `none` on success and the thrown error message on
failure. -/
structure MoveEnv where
  rootPath : String
  ensureDirErr : String → Option String
  moveErr : String → String → Option String

/-- `file.userEdit?.targetPath || file.proposal?.targetPath` (the empty
string stands for an absent value, which is equally falsy). -/
def resolvedTargetPath (f : StagedFile) : String :=
  jsOr ((f.userEdit.bind (fun e => e.targetPath)).getD "")
       ((f.proposal.map (fun p => p.targetPath)).getD "")

/-- `file.originalPath || (file.file as any).path`. -/
def computedSourcePath (f : StagedFile) : String :=
  jsOr f.originalPath f.fileDotPath

/-- `FileOpsService.executeMove`: fail fast on a missing target path, an
invalid source path or an unset root; otherwise ensure the target
directory exists and move, treating source = target as a no-op success.
Every failure is reported in the returned `MoveResult`, never thrown. -/
def executeMove (env : MoveEnv) (f : StagedFile) : MoveResult :=
  let sourcePath := computedSourcePath f
  let targetPath := resolvedTargetPath f
  if targetPath = "" then
    ⟨f.id, false, sourcePath, "", some "未指定目标路径"⟩
  else if sourcePath = "" ∨ sourcePath = f.name then
    ⟨f.id, false, sourcePath, targetPath, some "无有效源文件路径，请重新扫描文件夹"⟩
  else if env.rootPath = "" then
    ⟨f.id, false, sourcePath, targetPath, some "Root path not set"⟩
  else
    let fullTargetDir := env.rootPath ++ "/" ++ stripLeadingSlashes targetPath
    let fullTargetFile := fullTargetDir ++ "/" ++ f.name
    match env.ensureDirErr fullTargetDir with
    | some msg => ⟨f.id, false, sourcePath, targetPath, some msg⟩
    | none =>
        if sourcePath = fullTargetFile then
          ⟨f.id, true, sourcePath, fullTargetFile, none⟩
        else
          match env.moveErr sourcePath fullTargetFile with
          | some msg => ⟨f.id, false, sourcePath, targetPath, some msg⟩
          | none => ⟨f.id, true, sourcePath, fullTargetFile, none⟩

/-- One entry of the undo log: `{source, target}` — `source` is where the
committed file now lives, `target` where it came from (the reverse of the
committed move). -/
structure UndoOp where
  source : String
  target : String
deriving DecidableEq

/-- The batch workflow status of the staging store. -/
inductive WorkflowStatus where
  | idle
  | analyzing
  | reviewing
  | executing
  | done
deriving DecidableEq

/-- The eligibility filter of `executeCommit`:
`f.status === 'success' && !f.proposal?.targetPath?.includes('跳过')`. -/
def eligibleForCommit (f : StagedFile) : Bool :=
  f.status == FileStatus.success &&
  !(match f.proposal with
    | some p => jsIncludes p.targetPath "跳过"
    | none => false)

/-- The list of files `executeCommit` iterates over: the eligible files,
restricted to the selection when a non-empty selection is passed. -/
def commitList (files : List StagedFile) (selectedIds : List String) :
    List StagedFile :=
  let base := files.filter eligibleForCommit
  if selectedIds.isEmpty then base
  else base.filter (fun f => selectedIds.contains f.id)

/-- The loop state of `executeCommit`: accumulated results, accumulated
undo operations, and the staging store's `files` (from which each
successfully moved file is removed). -/
structure CommitState where
  results : List MoveResult
  undoOps : List UndoOp
  files : List StagedFile
deriving DecidableEq

/-- The per-file loop of `executeCommit`: move, record the result, and on
success append the reversed operation to the undo list and remove the
file from the store. -/
def commitLoop (env : MoveEnv) :
    List StagedFile → CommitState → CommitState
  | [], st => st
  | f :: rest, st =>
      let r := executeMove env f
      if r.success then
        commitLoop env rest
          { results := st.results ++ [r],
            undoOps := st.undoOps ++ [⟨r.targetPath, r.sourcePath⟩],
            files := removeFile st.files f.id }
      else
        commitLoop env rest { st with results := st.results ++ [r] }

/-- What `executeCommit` returns and leaves behind: the counts and
results, the fresh undo operations (the source stores them as
`this.undoLog`, replacing any prior log), the staging store's remaining
files, and the final workflow status (`reviewing` on any failure so the
batch is resumable, `done` otherwise).  Metadata persistence and the
undo-log file write are IO-only side effects. -/
structure CommitOutcome where
  successCount : Nat
  failCount : Nat
  results : List MoveResult
  undoOps : List UndoOp
  files : List StagedFile
  workflowStatus : WorkflowStatus
deriving DecidableEq

/-- `FileOpsService.executeCommit(selectedIds?)`. -/
def executeCommit (env : MoveEnv) (files : List StagedFile)
    (selectedIds : List String) : CommitOutcome :=
  let st := commitLoop env (commitList files selectedIds) ⟨[], [], files⟩
  let successCount := (st.results.filter (fun r => r.success)).length
  let failCount := (st.results.filter (fun r => !r.success)).length
  { successCount := successCount, failCount := failCount,
    results := st.results, undoOps := st.undoOps, files := st.files,
    workflowStatus :=
      if 0 < failCount then WorkflowStatus.reviewing else WorkflowStatus.done }

/-- The ids of the files of `L` whose move succeeds under `env` (the
files `executeCommit` removes from the staging store). -/
def commitSuccessIds (env : MoveEnv) (L : List StagedFile) : List String :=
  (L.filter (fun f => (executeMove env f).success)).map (fun f => f.id)

/-- The undo log (`{timestamp, operations}`). -/
structure UndoLog where
  timestamp : Nat
  operations : List UndoOp
deriving DecidableEq

/-- The capabilities `executeUndo` consumes: a file-existence check for
the moved location, and directory/move outcomes as for `MoveEnv`. -/
structure UndoEnv where
  fileExistsB : String → Bool
  ensureDirErr : String → Option String
  moveErr : String → String → Option String

/-- `path.substring(0, path.lastIndexOf('/'))`: the directory part of a
path (empty when the path has no slash). -/
def dirName (s : String) : String :=
  String.mk (((s.toList.reverse.dropWhile (fun c => c ≠ '/')).drop 1).reverse)

/-- `path.split('/').pop() || ''`: the last slash-separated piece. -/
def lastSegment (s : String) : String :=
  String.mk ((s.toList.reverse.takeWhile (fun c => c ≠ '/')).reverse)

/-- Outcome of `executeUndo`: the counts it returns, the moves it actually
performed (each `(from, to)` pair passed to the move capability), and the
`(name, path)` entries it re-added to the staging store. -/
structure UndoOutcome where
  successCount : Nat
  failCount : Nat
  performedMoves : List (String × String)
  readded : List (String × String)
deriving DecidableEq

/-- The per-operation loop of `executeUndo`: skip (and count as failed)
an operation whose moved-to location no longer exists; otherwise ensure
the original directory exists and move `source → target`, re-adding the
restored file to staging on success.  Any failure only affects its own
operation. -/
def undoLoop (env : UndoEnv) : List UndoOp → UndoOutcome → UndoOutcome
  | [], acc => acc
  | op :: rest, acc =>
      if !(env.fileExistsB op.source) then
        undoLoop env rest { acc with failCount := acc.failCount + 1 }
      else
        match env.ensureDirErr (dirName op.target) with
        | some _ => undoLoop env rest { acc with failCount := acc.failCount + 1 }
        | none =>
            match env.moveErr op.source op.target with
            | some _ =>
                undoLoop env rest { acc with failCount := acc.failCount + 1 }
            | none =>
                undoLoop env rest
                  { acc with
                    successCount := acc.successCount + 1,
                    performedMoves :=
                      acc.performedMoves ++ [(op.source, op.target)],
                    readded := acc.readded ++ [(lastSegment op.target, op.target)] }

/-- `FileOpsService.executeUndo`: replay the current undo log in order
(no log, or an empty one, does nothing); the source clears the log
afterwards regardless of partial failure. -/
def executeUndo (env : UndoEnv) (log : Option UndoLog) : UndoOutcome :=
  match log with
  | none => ⟨0, 0, [], []⟩
  | some l =>
      if l.operations.isEmpty then ⟨0, 0, [], []⟩
      else undoLoop env l.operations ⟨0, 0, [], []⟩

/-- A commit environment whose directory and move layers always
succeed, rooted at `/R`. -/
def commitDemoEnv : MoveEnv := ⟨"/R", fun _ => none, fun _ _ => none⟩

/-- An undo environment where the moved file still exists and the
directory and move layers succeed. -/
def undoDemoEnv : UndoEnv := ⟨fun _ => true, fun _ => none, fun _ _ => none⟩

/-- A staged file approved for commit: proposal target `Work`, source
`/in/a.txt`. -/
def commitDemoFile : StagedFile :=
  { id := "c1", name := "a.txt", fileDotPath := "",
    status := FileStatus.success, originalPath := "/in/a.txt",
    proposal := some ⟨"Work", "", [], "", 1⟩ }

/-- `simLt` is exactly the strict order of the represented rational
values. -/
theorem simLt_iff_val_lt (p q : SimScore) :
    simLt p q = true ↔ p.val < q.val := by
  rcases p with ⟨pi, pu⟩
  rcases q with ⟨qi, qu⟩
  unfold simLt SimScore.val
  by_cases hpu : pu = 0 <;> by_cases hqu : qu = 0 <;>
    simp only [hpu, hqu, if_true, if_false, ite_true, ite_false, reduceIte,
      decide_eq_true_eq, Nat.zero_mul, Nat.mul_one, Nat.mul_zero,
      Nat.one_mul]
  · simp
  · have hq : (0 : ℚ) < (qu : ℚ) :=
      by exact_mod_cast Nat.pos_of_ne_zero hqu
    constructor
    · intro h; exact div_pos (by exact_mod_cast h) hq
    · intro h
      rcases Nat.eq_zero_or_pos qi with h0 | h0
      · rw [h0] at h; simp at h
      · exact h0
  · simp only [Nat.not_lt_zero, false_iff, not_lt]
    exact div_nonneg (by positivity) (by positivity)
  · have hp : (0 : ℚ) < (pu : ℚ) :=
      by exact_mod_cast Nat.pos_of_ne_zero hpu
    have hq : (0 : ℚ) < (qu : ℚ) :=
      by exact_mod_cast Nat.pos_of_ne_zero hqu
    rw [div_lt_div_iff₀ hp hq]
    constructor
    · intro h; exact_mod_cast h
    · intro h; exact_mod_cast h

/-- Claim C9: the token-based similarity of the resolver is symmetric:
`similarity(a, b) == similarity(b, a)` for all strings `a` and `b`, where
the similarity is the Jaccard ratio over lowercased tokens split on
whitespace and `/`. -/
theorem calculateSimilarity_symm (a b : String) :
    calculateSimilarity a b = calculateSimilarity b a := by
  unfold calculateSimilarity
  rw [Finset.union_comm, Finset.inter_comm]

/-- Claim C5: in Strict mode with an empty `existingCategories` list, for
every AI-suggested category string — and any taxonomy tree, any
vocabulary, and no learned correction applying to the file — the resolved
final target path is the empty string (root): no taxonomy structure is
fabricated from nothing. -/
theorem strict_empty_root (cfg : TaxonomyConfig) (treePaths : List String)
    (corrections : List CorrectionRecord)
    (fileName analysisCategory : String)
    (hm : cfg.mode = TaxMode.strict)
    (hc : findApplicableCorrection corrections fileName = none) :
    resolveFinalCategory cfg treePaths [] corrections fileName
      analysisCategory = "" := by
  unfold resolveFinalCategory
  rw [hc]
  simp [hm, stripSlashes, stripLeadingSlashes, stripTrailingSlashes]

/-- Witness for `strict_empty_root`: scenario 2 of the specification,
`Resolve("Projects/2024", [], StrictConfig) == ""`. -/
theorem strict_empty_root_witness :
    findApplicableCorrection [] "a.txt" = none ∧
    resolveFinalCategory ⟨TaxMode.strict, 3, 10, [], []⟩
      ["/Work", "/Life", "/Archive", "/_Unclassified"] [] [] "a.txt"
      "Projects/2024" = "" :=
  ⟨by decide,
   strict_empty_root ⟨TaxMode.strict, 3, 10, [], []⟩
     ["/Work", "/Life", "/Archive", "/_Unclassified"] [] "a.txt"
     "Projects/2024" rfl (by decide)⟩

/-- Claim C8: when a recorded correction applies to a file's name, the
target path written for that file is the correction's `userChosen` path
verbatim with only leading/trailing slashes stripped, bypassing the
resolver entirely — no depth truncation, no vocabulary enforcement, no
`maxChildren` check and no Strict-mode resolution — regardless of the
taxonomy configuration, the taxonomy tree and the existing categories
(all of which the conclusion is independent of). -/
theorem correction_precedence (cfg : TaxonomyConfig)
    (treePaths existingCategories : List String)
    (corrections : List CorrectionRecord)
    (fileName analysisCategory : String) (rec : CorrectionRecord)
    (h : findApplicableCorrection corrections fileName = some rec) :
    resolveFinalCategory cfg treePaths existingCategories corrections
      fileName analysisCategory = stripSlashes rec.userChosen := by
  unfold resolveFinalCategory
  rw [h]

/-- Witness for `correction_precedence`: a correction learned for
`report.pdf` with a path four levels deep is replayed verbatim (only
slashes stripped) under a Strict configuration with `maxDepth = 1`. -/
theorem correction_precedence_witness :
    findApplicableCorrection
      [⟨"Old", "/Deep/Path/Learned/Here/", "report.pdf", 5⟩] "report.pdf"
      = some ⟨"Old", "/Deep/Path/Learned/Here/", "report.pdf", 5⟩ ∧
    resolveFinalCategory ⟨TaxMode.strict, 1, 10, [], []⟩ ["/Work"] ["X"]
      [⟨"Old", "/Deep/Path/Learned/Here/", "report.pdf", 5⟩] "report.pdf"
      "Anything" = stripSlashes "/Deep/Path/Learned/Here/" :=
  ⟨by decide,
   correction_precedence ⟨TaxMode.strict, 1, 10, [], []⟩ ["/Work"] ["X"]
     [⟨"Old", "/Deep/Path/Learned/Here/", "report.pdf", 5⟩] "report.pdf"
     "Anything" ⟨"Old", "/Deep/Path/Learned/Here/", "report.pdf", 5⟩
     (by decide)⟩

/-- Counterexample to claim C2: in Strict mode with
`existingCategories = ["Finance"]` and the default taxonomy tree, the
suggestion `"Work stuff"` is resolved to `"Work"` — a path of the
taxonomy tree, not a member of `existingCategories` — because
`findBestMatch` scores the suggestion against the tree paths
(`getAllCategoryPaths`), not against `existingCategories`; the
procedure the claim describes would have returned the forced fallback
`"Finance"`. -/
theorem strict_fuzzy_counterexample :
    resolveFinalCategory ⟨TaxMode.strict, 3, 10, [], []⟩
        ["/Work", "/Life", "/Archive", "/_Unclassified"] ["Finance"] []
        "doc.txt" "Work stuff" = "Work" ∧
    resolveStrictPerSpecC2 ["Finance"] "Work stuff" = "Finance" ∧
    (["Finance"] : List String).contains "Work" = false ∧
    getAllCategoryPaths defaultTaxonomyRoot
      = ["/Work", "/Life", "/Archive", "/_Unclassified"] :=
  ⟨by decide, by decide, by decide, by decide⟩

/-- Claim C2 as amended: in Strict mode with a non-empty
`existingCategories` list, no applicable correction and an empty
vocabulary, when the (depth-truncated) suggested category is not an exact
member of `existingCategories` (plain or `'/'`-prefixed), the engine
fuzzy-matches it against the taxonomy service's tree paths with
`findBestMatch` at threshold 0.3; if the reported similarity is positive
the tree path of the best match becomes the final path, and otherwise the
first entry of `existingCategories` is the deterministic forced fallback
(surrounding slashes stripped either way). -/
theorem strict_fuzzy_resolution (cfg : TaxonomyConfig)
    (treePaths existingCategories : List String)
    (corrections : List CorrectionRecord)
    (fileName analysisCategory : String)
    (hm : cfg.mode = TaxMode.strict)
    (hv : cfg.categoryVocabulary = [])
    (hc : findApplicableCorrection corrections fileName = none)
    (hne : existingCategories ≠ [])
    (hmem : memberOfCategories existingCategories
        (truncateToDepth cfg.maxDepth (jsOr analysisCategory "未分类"))
        = false) :
    resolveFinalCategory cfg treePaths existingCategories corrections
        fileName analysisCategory
      = stripSlashes
          (if simLt simZero
              (findBestMatch treePaths
                (truncateToDepth cfg.maxDepth (jsOr analysisCategory "未分类"))
                ⟨3, 10⟩).similarity
           then (findBestMatch treePaths
                (truncateToDepth cfg.maxDepth (jsOr analysisCategory "未分类"))
                ⟨3, 10⟩).path
           else existingCategories.headD "") := by
  unfold resolveFinalCategory
  rw [hc]
  simp [hm, hv, hne, hmem, isInVocabulary]

/-- Witness for `strict_fuzzy_resolution`: scenario 1 of the
specification, `"Finance"` against `existingCategories =
["Work/Finance", "Work/Travel"]` (which are also the tree paths). -/
theorem strict_fuzzy_resolution_witness :
    memberOfCategories ["Work/Finance", "Work/Travel"]
      (truncateToDepth 3 (jsOr "Finance" "未分类")) = false ∧
    resolveFinalCategory ⟨TaxMode.strict, 3, 10, [], []⟩
        ["Work/Finance", "Work/Travel"] ["Work/Finance", "Work/Travel"] []
        "inv.pdf" "Finance"
      = stripSlashes
          (if simLt simZero
              (findBestMatch ["Work/Finance", "Work/Travel"]
                (truncateToDepth 3 (jsOr "Finance" "未分类"))
                ⟨3, 10⟩).similarity
           then (findBestMatch ["Work/Finance", "Work/Travel"]
                (truncateToDepth 3 (jsOr "Finance" "未分类"))
                ⟨3, 10⟩).path
           else (["Work/Finance", "Work/Travel"] : List String).headD "") :=
  ⟨by decide,
   strict_fuzzy_resolution ⟨TaxMode.strict, 3, 10, [], []⟩
     ["Work/Finance", "Work/Travel"] ["Work/Finance", "Work/Travel"] []
     "inv.pdf" "Finance" rfl rfl (by decide) (by decide) (by decide)⟩

/-- Counterexample to claim C1: in Strict mode with `maxDepth = 3` and
`existingCategories = ["A/B/C/D"]`, a suggestion with no fuzzy match
forces the fallback to the first existing category, which is written
verbatim: the final target path `"A/B/C/D"` has 4 slash-separated
segments, exceeding `maxDepth`. -/
theorem depth_bound_counterexample :
    resolveFinalCategory ⟨TaxMode.strict, 3, 10, [], []⟩
        ["/Work", "/Life", "/Archive", "/_Unclassified"] ["A/B/C/D"] []
        "f.bin" "zzz" = "A/B/C/D" ∧
    (⟨TaxMode.strict, 3, 10, [], []⟩ : TaxonomyConfig).maxDepth
      < rawSegCount "A/B/C/D" :=
  ⟨by decide, by decide⟩

/-- Claim C10: for every staged file id and every proposal value,
`updateFileProposal(id, proposal)` unconditionally sets the matching
file's status to `success` — whatever the file's previous status was,
`duplicate`, `error`, `pending` and `analyzing` included — replaces its
proposal, leaves its other fields alone, and leaves every other file in
the store unchanged: position by position, the entry with the given id is
rewritten to proposal `p` and status `success`, and every other entry is
returned identically. -/
theorem updateFileProposal_forces_success (files : List StagedFile)
    (id : String) (p : Option Proposal) (i : Nat) :
    (updateFileProposal files id p).length = files.length ∧
    (updateFileProposal files id p)[i]? = (files[i]?).map (fun f =>
      if f.id == id then
        { f with proposal := p, status := FileStatus.success }
      else f) := by
  constructor
  · simp [updateFileProposal]
  · simp [updateFileProposal]

/-- Claim C3, evaluated at its failing input: a newly added
(non-reanalysis) file whose content hash `"H"` is already indexed under
the different original name `report.pdf` does get the explanatory
same-content-different-name proposal the claim describes (tags
`["内容重复", "不同文件名"]`, both file names shown in the reasoning) —
but its final status is `success`, not `duplicate`: the `duplicate`
status set by `processFiles` is immediately overwritten because
`updateFileProposal` unconditionally forces status `success`. -/
theorem duplicate_status_clobbered :
    dedupPhaseOneFile [dupDemoFile] dupDemoFile ["H"]
        (fun h => if h == "H" then some "report.pdf" else none) "H"
      = [{ dupDemoFile with
            status := FileStatus.success, contentHash := some "H",
            proposal := some (dupProposal "report_v2.pdf" "report.pdf" false) }] ∧
    (dupProposal "report_v2.pdf" "report.pdf" false).tags
      = ["内容重复", "不同文件名"] ∧
    jsIncludes (dupProposal "report_v2.pdf" "report.pdf" false).reasoning
      "report_v2.pdf" = true ∧
    jsIncludes (dupProposal "report_v2.pdf" "report.pdf" false).reasoning
      "report.pdf" = true ∧
    FileStatus.success ≠ FileStatus.duplicate :=
  ⟨by decide, by decide, by decide, by decide, by decide⟩

/-- Counterexample to claim C4: a per-file analysis failure with message
`"vision not supported"` leaves that file with status `success` — not
`Error` as the claim states — because the handler routes
capability-mismatch errors through `updateFileProposal`, which forces
status `success`; the other file of the batch is untouched. -/
theorem capability_error_counterexample :
    handleAnalysisError [visionDemoFile, otherDemoFile] "fa"
        "vision not supported"
      = [{ visionDemoFile with
            status := FileStatus.success,
            proposal := some (capMismatchProposal "vision not supported") },
         otherDemoFile] ∧
    FileStatus.success ≠ FileStatus.error :=
  ⟨by decide, by decide⟩

theorem isPrefixOf_self (l : List Char) : l.isPrefixOf l = true := by
  induction l with
  | nil => rfl
  | cons c rest ih => simp [List.isPrefixOf, ih]

theorem containsSeq_append_right (n h : List Char) :
    containsSeq n (h ++ n) = true := by
  induction h with
  | nil =>
      cases n with
      | nil => rfl
      | cons c rest => simp [containsSeq, isPrefixOf_self]
  | cons c h' ih => simp [containsSeq, ih]

/-- A string always `includes` its own suffix. -/
theorem jsIncludes_append_right (a b : String) :
    jsIncludes (a ++ b) b = true := by
  unfold jsIncludes
  rw [show (a ++ b).toList = a.toList ++ b.toList from String.data_append a b]
  exact containsSeq_append_right b.toList a.toList

/-- Claim C4 as amended: when a per-file analysis failure's message
carries a capability-mismatch marker (`'不支持'` or `'not support'`), the
handler replaces that file's proposal with a capability-mismatch
proposal — target path `未分类/Error`, a summary containing the original
message (and therefore the recognizable marker), the user-actionable tag
`模型不支持` first — and, because the write goes through
`updateFileProposal`, the file's status becomes `success`, not `Error`;
every other file of the batch is returned unchanged, position by
position. -/
theorem capability_error_handling (files : List StagedFile)
    (fileId errMessage : String) (i : Nat)
    (h : notSupportedMarker errMessage = true) :
    (handleAnalysisError files fileId errMessage)[i]?
      = (files[i]?).map (fun f =>
          if f.id == fileId then
            { f with proposal := some (capMismatchProposal errMessage),
                     status := FileStatus.success }
          else f) ∧
    jsIncludes (capMismatchProposal errMessage).summary errMessage = true ∧
    (capMismatchProposal errMessage).tags.headD "" = "模型不支持" ∧
    (capMismatchProposal errMessage).targetPath = "未分类/Error" := by
  refine ⟨?_, ?_, by rfl, by rfl⟩
  · unfold handleAnalysisError
    rw [h]
    simp [updateFileProposal]
  · exact jsIncludes_append_right "⚠️ 模型不支持此文件类型: " errMessage

/-- Witness for `capability_error_handling` at the concrete message
`"vision not supported"`. -/
theorem capability_error_handling_witness :
    notSupportedMarker "vision not supported" = true ∧
    (handleAnalysisError [visionDemoFile, otherDemoFile] "fa"
        "vision not supported")[1]?
      = ([visionDemoFile, otherDemoFile][1]?).map (fun f =>
          if f.id == "fa" then
            { f with
                proposal := some (capMismatchProposal "vision not supported"),
                status := FileStatus.success }
          else f) :=
  ⟨by decide,
   (capability_error_handling [visionDemoFile, otherDemoFile] "fa"
     "vision not supported" 1 (by decide)).1⟩

/-- Closed form of the commit loop: the results are the per-file
`executeMove` outcomes in order (each file's outcome depending only on
its own move), the undo operations are the reversed
`(targetPath, sourcePath)` pairs of the successful moves, and the store
keeps exactly the files whose id is not among the successfully moved
ones. -/
theorem commitLoop_spec (env : MoveEnv) (L : List StagedFile)
    (st : CommitState) :
    commitLoop env L st =
      { results := st.results ++ L.map (executeMove env),
        undoOps := st.undoOps ++
          (L.filter (fun f => (executeMove env f).success)).map
            (fun f => ⟨(executeMove env f).targetPath,
                       (executeMove env f).sourcePath⟩),
        files := st.files.filter
          (fun g => !(commitSuccessIds env L).contains g.id) } := by
  induction L generalizing st with
  | nil => simp [commitLoop, commitSuccessIds]
  | cons f rest ih =>
      by_cases h : (executeMove env f).success
      · rw [commitLoop, if_pos h, ih]
        simp only [CommitState.mk.injEq]
        refine ⟨by simp, by simp [h], ?_⟩
        rw [removeFile, List.filter_filter]
        refine List.filter_congr (fun g _ => ?_)
        simp [commitSuccessIds, h, List.filter_cons, bne, Bool.not_or,
          Bool.and_comm]
      · rw [commitLoop, if_neg h, ih]
        simp only [CommitState.mk.injEq]
        refine ⟨by simp, by simp [h], ?_⟩
        refine List.filter_congr (fun g _ => ?_)
        simp [commitSuccessIds, h, List.filter_cons]

theorem length_filter_of_map {α β : Type} (f : α → β) (p : β → Bool)
    (l : List α) :
    ((l.map f).filter p).length = (l.filter (fun a => p (f a))).length := by
  induction l with
  | nil => rfl
  | cons a rest ih =>
      by_cases h : p (f a) <;> simp [List.filter_cons, h, ih]

/-- Claim C6: `executeCommit` moves each eligible staged file
independently — the results are the per-file `executeMove` outcomes in
submission order, so one move's failure cannot block the remaining
moves; `successCount` and `failCount` are exactly the numbers of
succeeded and failed per-file moves; and the staging store afterwards
holds exactly the files whose id is not among the successfully moved
ones — every successfully moved file removed, every file whose move
failed still present unchanged, with its prior `Success` status (e.g.
three committed files with the second move failing yield
`successCount = 2`, `failCount = 1`, with the first and third removed and
the second kept). -/
theorem executeCommit_independent_moves (env : MoveEnv)
    (files : List StagedFile) (selectedIds : List String) :
    (executeCommit env files selectedIds).results
        = (commitList files selectedIds).map (executeMove env)
  ∧ (executeCommit env files selectedIds).successCount
        = ((commitList files selectedIds).filter
            (fun f => (executeMove env f).success)).length
  ∧ (executeCommit env files selectedIds).failCount
        = ((commitList files selectedIds).filter
            (fun f => !(executeMove env f).success)).length
  ∧ (executeCommit env files selectedIds).files
        = files.filter
            (fun g => !(commitSuccessIds env
                (commitList files selectedIds)).contains g.id) := by
  unfold executeCommit
  rw [commitLoop_spec]
  refine ⟨by simp, ?_, ?_, by simp⟩
  · simpa using length_filter_of_map (executeMove env)
      (fun r => r.success) (commitList files selectedIds)
  · simpa using length_filter_of_map (executeMove env)
      (fun r => !r.success) (commitList files selectedIds)

/-- A successful `executeMove` in closed form: with a non-empty target
path, a valid source, a set root, and a directory/move layer that does
not fail, the move succeeds and lands at
`root ++ "/" ++ cleanTarget ++ "/" ++ fileName`. -/
theorem executeMove_success (env : MoveEnv) (f : StagedFile)
    (htpne : resolvedTargetPath f ≠ "")
    (hSne : computedSourcePath f ≠ "")
    (hSnm : computedSourcePath f ≠ f.name)
    (hroot : env.rootPath ≠ "")
    (hdir : env.ensureDirErr
      (env.rootPath ++ "/" ++ stripLeadingSlashes (resolvedTargetPath f))
      = none)
    (hmv : env.moveErr (computedSourcePath f)
      (env.rootPath ++ "/" ++ stripLeadingSlashes (resolvedTargetPath f)
        ++ "/" ++ f.name) = none) :
    executeMove env f =
      ⟨f.id, true, computedSourcePath f,
       env.rootPath ++ "/" ++ stripLeadingSlashes (resolvedTargetPath f)
         ++ "/" ++ f.name, none⟩ := by
  unfold executeMove
  rw [if_neg htpne, if_neg (not_or.mpr ⟨hSne, hSnm⟩), if_neg hroot]
  simp only [hdir]
  by_cases heq : computedSourcePath f
      = env.rootPath ++ "/" ++ stripLeadingSlashes (resolvedTargetPath f)
        ++ "/" ++ f.name
  · rw [if_pos heq, heq]
  · rw [if_neg heq]
    simp only [hmv]

/-- Claim C7: for a file committed from source `S` to target `T`, the
undo log records the reversed operation (`operation.source = T`,
`operation.target = S`); `executeUndo` on that log performs the move
`T → S`; and committing again any staged entry with the same file name,
the same resolved target path and source `S` (such as the entry the undo
re-adds) lands on the same target `T` — commit, undo, commit reproduces
`T` with no drift. -/
theorem commit_undo_commit_inverse (env : MoveEnv) (uenv : UndoEnv)
    (f g : StagedFile) (tp S T : String)
    (htp : resolvedTargetPath f = tp) (htpne : tp ≠ "")
    (helig : eligibleForCommit f = true)
    (hS : computedSourcePath f = S) (hSne : S ≠ "") (hSnm : S ≠ f.name)
    (hroot : env.rootPath ≠ "")
    (hT : T = env.rootPath ++ "/" ++ stripLeadingSlashes tp ++ "/" ++ f.name)
    (hdir : env.ensureDirErr
      (env.rootPath ++ "/" ++ stripLeadingSlashes tp) = none)
    (hmv : env.moveErr S T = none)
    (hux : uenv.fileExistsB T = true)
    (hud : uenv.ensureDirErr (dirName S) = none)
    (humv : uenv.moveErr T S = none)
    (hg1 : computedSourcePath g = S) (hg2 : g.name = f.name)
    (hg3 : resolvedTargetPath g = tp) :
    executeMove env f = ⟨f.id, true, S, T, none⟩ ∧
    (executeCommit env [f] []).undoOps = [⟨T, S⟩] ∧
    (executeUndo uenv (some ⟨0, [⟨T, S⟩]⟩)).performedMoves = [(T, S)] ∧
    executeMove env g = ⟨g.id, true, S, T, none⟩ := by
  subst hT htp hS
  have hmove : executeMove env f =
      ⟨f.id, true, computedSourcePath f,
       env.rootPath ++ "/" ++ stripLeadingSlashes (resolvedTargetPath f)
         ++ "/" ++ f.name, none⟩ :=
    executeMove_success env f htpne hSne hSnm hroot hdir hmv
  have hmoveg : executeMove env g =
      ⟨g.id, true, computedSourcePath f,
       env.rootPath ++ "/" ++ stripLeadingSlashes (resolvedTargetPath f)
         ++ "/" ++ f.name, none⟩ := by
    have := executeMove_success env g
      (by rw [hg3]; exact htpne)
      (by rw [hg1]; exact hSne)
      (by rw [hg1, hg2]; exact hSnm)
      hroot
      (by rw [hg3]; exact hdir)
      (by rw [hg1, hg3, hg2]; exact hmv)
    rw [this, hg1, hg2, hg3]
  refine ⟨hmove, ?_, ?_, hmoveg⟩
  · unfold executeCommit commitList
    simp only [List.filter_cons, helig, List.filter_nil, List.isEmpty_nil,
      if_true, ite_true, cond_true]
    rw [commitLoop_spec]
    simp [hmove]
  · unfold executeUndo
    simp only [List.isEmpty_cons, if_false, Bool.false_eq_true, reduceIte]
    rw [undoLoop]
    simp only [hux, Bool.not_true, if_false, hud, humv, Bool.false_eq_true,
      reduceIte]
    rw [undoLoop]
    simp

/-- Witness for `commit_undo_commit_inverse`: committing
`/in/a.txt → /R/Work/a.txt` logs the reversed pair, undoing moves
`/R/Work/a.txt → /in/a.txt`, and re-committing the same entry lands on
`/R/Work/a.txt` again. -/
theorem commit_undo_commit_inverse_witness :
    eligibleForCommit commitDemoFile = true ∧
    ((executeCommit commitDemoEnv [commitDemoFile] []).undoOps
        = [⟨"/R/Work/a.txt", "/in/a.txt"⟩] ∧
     (executeUndo undoDemoEnv
        (some ⟨0, [⟨"/R/Work/a.txt", "/in/a.txt"⟩]⟩)).performedMoves
        = [("/R/Work/a.txt", "/in/a.txt")] ∧
     executeMove commitDemoEnv commitDemoFile
        = ⟨"c1", true, "/in/a.txt", "/R/Work/a.txt", none⟩) :=
  ⟨by decide,
   (commit_undo_commit_inverse commitDemoEnv undoDemoEnv commitDemoFile
      commitDemoFile "Work" "/in/a.txt" "/R/Work/a.txt"
      (by decide) (by decide) (by decide) (by decide) (by decide)
      (by decide) (by decide) (by decide) (by decide) (by decide)
      (by decide) (by decide) (by decide) (by decide) (by decide)
      (by decide)).2⟩

theorem splitChar_ne_nil (sep : Char) (cs : List Char) :
    splitChar sep cs ≠ [] := by
  cases cs with
  | nil => simp [splitChar]
  | cons c rest =>
      rw [splitChar]
      by_cases h : c = sep
      · simp [h]
      · rw [if_neg h]
        cases hs : splitChar sep rest <;> simp

theorem splitChar_append_sep (sep : Char) (xs : List Char) :
    splitChar sep (xs ++ [sep]) = splitChar sep xs ++ [[]] := by
  induction xs with
  | nil => simp [splitChar]
  | cons c rest ih =>
      by_cases h : c = sep
      · rw [List.cons_append, splitChar, if_pos h, ih, splitChar, if_pos h,
          List.cons_append]
      · cases hs : splitChar sep rest with
        | nil => exact absurd hs (splitChar_ne_nil sep rest)
        | cons t ts =>
            rw [List.cons_append, splitChar, if_neg h, ih, hs,
              splitChar, if_neg h, hs, List.cons_append, List.cons_append]

theorem splitChar_sep_not_mem (sep : Char) (cs : List Char) :
    ∀ t ∈ splitChar sep cs, sep ∉ t := by
  induction cs with
  | nil =>
      intro t ht
      simp [splitChar] at ht
      simp [ht]
  | cons c rest ih =>
      intro t ht
      by_cases h : c = sep
      · rw [splitChar, if_pos h] at ht
        rcases List.mem_cons.mp ht with h0 | h0
        · simp [h0]
        · exact ih t h0
      · rw [splitChar, if_neg h] at ht
        cases hs : splitChar sep rest with
        | nil => exact absurd hs (splitChar_ne_nil sep rest)
        | cons t' ts =>
            rw [hs] at ht
            rcases List.mem_cons.mp ht with h0 | h0
            · subst h0
              intro hmem
              rcases List.mem_cons.mp hmem with h1 | h1
              · exact h h1.symm
              · exact ih t' (by rw [hs]; exact List.mem_cons_self t' ts) h1
            · exact ih t (by rw [hs]; exact List.mem_cons_of_mem t' h0)

theorem splitChar_of_sep_not_mem (sep : Char) (cs : List Char)
    (h : sep ∉ cs) : splitChar sep cs = [cs] := by
  induction cs with
  | nil => rfl
  | cons c rest ih =>
      have hc : ¬ c = sep := fun hc => h (hc ▸ List.mem_cons_self c rest)
      have hrest : sep ∉ rest := fun hm => h (List.mem_cons_of_mem c hm)
      rw [splitChar, if_neg hc, ih hrest]

theorem splitChar_append_cons (sep : Char) (x r : List Char)
    (hx : sep ∉ x) :
    splitChar sep (x ++ sep :: r) = x :: splitChar sep r := by
  induction x with
  | nil => rw [List.nil_append, splitChar, if_pos rfl]
  | cons c x' ih =>
      have hc : ¬ c = sep := fun hc => hx (hc ▸ List.mem_cons_self c x')
      have hx' : sep ∉ x' := fun hm => hx (List.mem_cons_of_mem c hm)
      rw [List.cons_append, splitChar, if_neg hc, ih hx']

theorem string_toList_append (a b : String) :
    (a ++ b).toList = a.toList ++ b.toList := by
  cases a
  cases b
  rfl

theorem jsJoinSlash_toList_cons (x y : String) (ps : List String) :
    (jsJoinSlash (x :: y :: ps)).toList
      = x.toList ++ '/' :: (jsJoinSlash (y :: ps)).toList := by
  rw [jsJoinSlash, string_toList_append, string_toList_append,
    List.append_assoc]
  rfl

theorem splitChar_jsJoinSlash (ps : List String) (hne : ps ≠ [])
    (h : ∀ p ∈ ps, '/' ∉ p.toList) :
    splitChar '/' (jsJoinSlash ps).toList = ps.map String.toList := by
  induction ps with
  | nil => exact absurd rfl hne
  | cons x ps ih =>
      cases ps with
      | nil =>
          rw [jsJoinSlash]
          rw [splitChar_of_sep_not_mem '/' x.toList
            (h x (List.mem_cons_self x []))]
          rfl
      | cons y ps' =>
          rw [jsJoinSlash_toList_cons,
            splitChar_append_cons '/' x.toList _
              (h x (List.mem_cons_self x (y :: ps'))),
            ih (by simp) (fun p hp => h p (List.mem_cons_of_mem x hp))]
          rfl

theorem filter_nonempty_dropWhile_slashes (cs : List Char) :
    (splitChar '/' (cs.dropWhile (fun c => c = '/'))).filter
        (fun t => !t.isEmpty)
      = (splitChar '/' cs).filter (fun t => !t.isEmpty) := by
  induction cs with
  | nil => rfl
  | cons c rest ih =>
      by_cases h : c = '/'
      · rw [List.dropWhile_cons_of_pos (by simp [h]), ih, splitChar,
          if_pos h, List.filter_cons]
        simp
      · rw [List.dropWhile_cons_of_neg (by simp [h])]

theorem filter_nonempty_append_replicate (cs : List Char) (k : Nat) :
    (splitChar '/' (cs ++ List.replicate k '/')).filter
        (fun t => !t.isEmpty)
      = (splitChar '/' cs).filter (fun t => !t.isEmpty) := by
  induction k with
  | zero => simp
  | succ k ih =>
      rw [List.replicate_succ', ← List.append_assoc, splitChar_append_sep,
        List.filter_append]
      simpa using ih

theorem stripTrailingSlashes_decomp (s : String) :
    s.toList = (stripTrailingSlashes s).toList ++
      List.replicate
        ((s.toList.reverse.takeWhile (fun c => c = '/')).length) '/' := by
  conv_lhs =>
    rw [← List.reverse_reverse s.toList,
      ← List.takeWhile_append_dropWhile
        (p := fun c => decide (c = '/')) (l := s.toList.reverse)]
  rw [List.reverse_append]
  congr 1
  rw [List.eq_replicate_iff]
  constructor
  · rw [List.length_reverse]
  · intro b hb
    have hb' := List.mem_reverse.mp hb
    have := List.mem_takeWhile_imp hb'
    simpa using this

theorem segCount_eq_filter_length (s : String) :
    segCount s = ((splitChar '/' (s.toList.dropWhile (fun c => c = '/'))).filter
      (fun t => !t.isEmpty)).length := by
  rw [segCount, segParts, List.length_map]
  rfl

/-- Stripping surrounding slashes does not change the number of non-empty
segments of a path. -/
theorem segCount_stripSlashes (s : String) :
    segCount (stripSlashes s) = segCount s := by
  rw [segCount_eq_filter_length, segCount_eq_filter_length]
  have hlead : (stripSlashes s).toList
      = ((stripLeadingSlashes s).toList.reverse.dropWhile
          (fun c => c = '/')).reverse := rfl
  rw [hlead]
  have hdecomp := stripTrailingSlashes_decomp (stripLeadingSlashes s)
  have hback : (stripLeadingSlashes s).toList
      = s.toList.dropWhile (fun c => c = '/') := rfl
  rw [filter_nonempty_dropWhile_slashes]
  conv_rhs =>
    rw [← hback, hdecomp, filter_nonempty_append_replicate]
  rfl

/-- The segment count of a join of non-empty slash-free parts is the
number of parts. -/
theorem segCount_jsJoinSlash (ps : List String) (hne : ps ≠ [])
    (hall : ∀ p ∈ ps, p ≠ "" ∧ '/' ∉ p.toList) :
    segCount (jsJoinSlash ps) = ps.length := by
  rw [segCount_eq_filter_length]
  have hslash : ∀ p ∈ ps, '/' ∉ p.toList := fun p hp => (hall p hp).2
  have hdrop : (jsJoinSlash ps).toList.dropWhile (fun c => c = '/')
      = (jsJoinSlash ps).toList := by
    rcases ps with _ | ⟨x, rest⟩
    · exact absurd rfl hne
    · have hxne : x ≠ "" := (hall x (List.mem_cons_self x rest)).1
      have hxl : x.toList ≠ [] := by
        intro hnil
        exact hxne (by cases x; simp_all [String.toList])
      rcases hx : x.toList with _ | ⟨c, cx⟩
      · exact absurd hx hxl
      · have hcsep : ¬ c = '/' := by
          intro hc
          exact (hall x (List.mem_cons_self x rest)).2
            (by rw [hx, hc]; exact List.mem_cons_self _ _)
        rcases rest with _ | ⟨y, ps'⟩
        · rw [show jsJoinSlash [x] = x from rfl, hx,
            List.dropWhile_cons_of_neg (by simp [hcsep])]
        · rw [jsJoinSlash_toList_cons, hx, List.cons_append,
            List.dropWhile_cons_of_neg (by simp [hcsep])]
  rw [hdrop, splitChar_jsJoinSlash ps hne hslash]
  rw [List.filter_eq_self.mpr]
  · rw [List.length_map]
  · intro t ht
    rcases List.mem_map.mp ht with ⟨p, hp, rfl⟩
    have : p.toList ≠ [] := by
      intro hnil
      exact (hall p hp).1 (by cases p; simp_all [String.toList])
    simpa [List.isEmpty_iff]

/-- Every entry of `segParts` is a non-empty slash-free segment. -/
theorem segParts_mem_spec (s : String) :
    ∀ p ∈ segParts s, p ≠ "" ∧ '/' ∉ p.toList := by
  intro p hp
  rw [segParts] at hp
  rcases List.mem_map.mp hp with ⟨t, ht, rfl⟩
  have ht' := List.mem_filter.mp ht
  have htne : t ≠ [] := by simpa [List.isEmpty_iff] using ht'.2
  refine ⟨?_, ?_⟩
  · intro hmk
    exact htne (by simpa using congrArg String.toList hmk)
  · have := splitChar_sep_not_mem '/' _ t ht'.1
    simpa using this

/-- After depth truncation and slash stripping, a path has at most
`maxDepth` non-empty segments (for `maxDepth ≥ 1`). -/
theorem segCount_stripSlashes_truncate_le (d : Nat) (hd : 1 ≤ d)
    (s : String) :
    segCount (stripSlashes (truncateToDepth d s)) ≤ d := by
  rw [segCount_stripSlashes]
  rw [truncateToDepth]
  by_cases h : d < (segParts s).length
  · rw [if_pos h]
    have htake : ((segParts s).take d).length = d := by
      rw [List.length_take]
      omega
    rw [segCount_jsJoinSlash]
    · omega
    · intro hnil
      have := congrArg List.length hnil
      rw [htake] at this
      simp at this
      omega
    · intro p hp
      exact segParts_mem_spec s p (List.mem_of_mem_take hp)
  · rw [if_neg h]
    rw [show segCount s = (segParts s).length from rfl]
    omega

/-- Claim C1 as amended: the final targetPath respects the `maxDepth`
bound exactly when it derives from the AI suggestion itself.  With no
applicable correction and an empty vocabulary, the proposal targetPath
written by `applyAnalysisResult` has at most `maxDepth` non-empty
slash-separated segments in Strict mode whenever `existingCategories` is
empty or the depth-truncated suggestion is an exact member, and in
Flexible mode whenever the `maxChildren` collapse does not fire; paths
adopted from a fuzzy match, from the forced fallback to
`existingCategories[0]`, from a `maxChildren` collapse, or from a learned
correction are written verbatim, with no re-truncation (see the
counterexample). -/
theorem depth_bound_for_suggestion_derived_paths
    (cfg : TaxonomyConfig) (treePaths existingCategories : List String)
    (corrections : List CorrectionRecord)
    (fileName analysisCategory : String)
    (hc : findApplicableCorrection corrections fileName = none)
    (hv : cfg.categoryVocabulary = [])
    (hd : 1 ≤ cfg.maxDepth)
    (hcase :
      (cfg.mode = TaxMode.strict ∧
        (existingCategories = [] ∨
         memberOfCategories existingCategories
           (truncateToDepth cfg.maxDepth (jsOr analysisCategory "未分类"))
           = true)) ∨
      (cfg.mode = TaxMode.flexible ∧
        collapseFires cfg existingCategories (jsOr analysisCategory "未分类")
          (truncateToDepth cfg.maxDepth (jsOr analysisCategory "未分类"))
          = false)) :
    segCount (resolveFinalCategory cfg treePaths existingCategories
      corrections fileName analysisCategory) ≤ cfg.maxDepth := by
  unfold resolveFinalCategory
  rw [hc]
  simp only [hv, isInVocabulary, List.isEmpty_nil, Bool.true_or, if_true,
    ite_true, reduceIte]
  rcases hcase with ⟨hm, hrest⟩ | ⟨hm, hcol⟩
  · simp only [hm, reduceIte, ite_true]
    have hflex : ¬ (TaxMode.strict = TaxMode.flexible ∧
        0 < (segParts (jsOr analysisCategory "未分类")).length) := by
      rintro ⟨hcontra, -⟩
      exact absurd hcontra (by decide)
    rw [if_neg hflex]
    by_cases hE : existingCategories = []
    · rw [if_pos hE]
      have : segCount (stripSlashes "") = 0 := by decide
      omega
    · rw [if_neg hE]
      rcases hrest with hE' | hmem
      · exact absurd hE' hE
      · rw [if_pos hmem]
        exact segCount_stripSlashes_truncate_le cfg.maxDepth hd _
  · simp only [hm, reduceIte]
    have hstrict : ¬ (TaxMode.flexible = TaxMode.strict) := by decide
    rw [if_neg hstrict]
    by_cases hp : 0 < (segParts (jsOr analysisCategory "未分类")).length
    · rw [if_pos ⟨trivial, hp⟩]
      by_cases hmem : memberOfCategories existingCategories
          (truncateToDepth cfg.maxDepth (jsOr analysisCategory "未分类"))
          = true
      · rw [if_pos hmem]
        exact segCount_stripSlashes_truncate_le cfg.maxDepth hd _
      · rw [if_neg hmem]
        have hmemf := Bool.eq_false_iff.mpr hmem
        have hsib : ¬ (cfg.maxChildren ≤ siblingCount existingCategories
            (segParts (jsOr analysisCategory "未分类"))) := by
          intro hle
          have htrue : collapseFires cfg existingCategories
              (jsOr analysisCategory "未分类")
              (truncateToDepth cfg.maxDepth (jsOr analysisCategory "未分类"))
              = true := by
            rw [collapseFires]
            simp [hp, hmemf, hle]
          rw [htrue] at hcol
          exact absurd hcol (by decide)
        rw [if_neg hsib]
        exact segCount_stripSlashes_truncate_le cfg.maxDepth hd _
    · rw [if_neg (by rintro ⟨-, hcontra⟩; exact hp hcontra)]
      exact segCount_stripSlashes_truncate_le cfg.maxDepth hd _

/-- Witness for `depth_bound_for_suggestion_derived_paths`: scenario 3 of
the specification — Flexible mode, `maxDepth = 3`, suggestion
`"A/B/C/D"` truncated to `"A/B/C"`, three segments. -/
theorem depth_bound_for_suggestion_derived_paths_witness :
    findApplicableCorrection [] "a.txt" = none ∧
    collapseFires ⟨TaxMode.flexible, 3, 10, [], []⟩ []
      (jsOr "A/B/C/D" "未分类") (truncateToDepth 3 (jsOr "A/B/C/D" "未分类"))
      = false ∧
    segCount (resolveFinalCategory ⟨TaxMode.flexible, 3, 10, [], []⟩
      ["/Work", "/Life", "/Archive", "/_Unclassified"] [] [] "a.txt"
      "A/B/C/D") ≤ 3 :=
  ⟨by decide, by decide,
   depth_bound_for_suggestion_derived_paths
     ⟨TaxMode.flexible, 3, 10, [], []⟩
     ["/Work", "/Life", "/Archive", "/_Unclassified"] [] [] "a.txt"
     "A/B/C/D" (by decide) rfl (by decide)
     (Or.inr ⟨rfl, by decide⟩)⟩

end Mindsync
